import Mathlib

/-!
Verification of the experiment-comparison harness in
`clustering/active_clustering.py`: the seed sampler, the algorithm
dispatcher, the multi-seed evaluation loop, and the feature-extractor
front-end. External clustering algorithms, oracles, metrics and the
process-wide random source are modelled as parameters (an environment of
abstract functions), while the harness's own control flow, grouping,
dispatch and error behaviour are embedded faithfully.
-/

namespace ActiveClustering

/-- Python exception outcomes relevant to the harness: a bare `assert cond`
(which raises `AssertionError` with no message), `ValueError` with a message,
and `NotImplementedError`. -/
inductive PyError where
  | assertionError : PyError
  | valueError : String → PyError
  | notImplementedError : PyError
deriving DecidableEq, Repr

/-- The message attached to a raised error; a bare `assert` has none. -/
def PyError.message : PyError → Option String
  | .assertionError => none
  | .valueError m => some m
  | .notImplementedError => none

/-- Contract of `random.sample(range(n), k)` for `k ≤ n`: it yields `k`
distinct values below `n` (the harness immediately wraps the sample in a
`set`, so we model it as a `Finset`), threading a random-source state. -/
def ValidSample {σ : Type} (sampleFn : σ → Nat → Nat → Finset Nat × σ) : Prop :=
  ∀ (s : σ) (n k : Nat), k ≤ n →
    ((sampleFn s n k).1.card = k ∧ ∀ i ∈ (sampleFn s n k).1, i < n)

/-- Keys of a Python dict in insertion order: fold the label stream, appending
each label the first time it is seen (`points_by_cluster` iteration order). -/
def insertionKeysAux (acc : List Int) : List Int → List Int
  | [] => acc
  | l :: rest => insertionKeysAux (if l ∈ acc then acc else acc ++ [l]) rest

/-- Distinct labels of `zl` in order of first occurrence. -/
def insertionKeys (zl : List Int) : List Int :=
  insertionKeysAux [] zl

/-- Size of the group `points_by_cluster[key]`: the number of zipped
`(feature, label)` pairs whose label equals `key`. -/
def grpLen {α : Type} (pairs : List (α × Int)) (key : Int) : Nat :=
  (pairs.filter (fun p => p.2 == key)).length

/-- The per-group output of the seed sampler's inner loop: for each in-group
index `i` below the group size `n`, the label `key` when `i` was sampled and
the unknown sentinel `-1` otherwise. -/
def groupBlock (smp : Finset Nat) (key : Int) (n : Nat) : List Int :=
  (List.range n).map (fun i => if i ∈ smp then key else -1)

/-- The `for label, points in points_by_cluster.items()` loop of
`sample_cluster_seeds`: walk the keys in insertion order, draw a sample for
each group (raising `random.sample`'s `ValueError` when the group is smaller
than `k`) and append the group's block to the accumulated output. -/
def sampleGroups {α σ : Type} (sampleFn : σ → Nat → Nat → Finset Nat × σ)
    (pairs : List (α × Int)) (k : Nat) :
    List Int → List Int → σ → Except PyError (List Int × σ)
  | [], acc, s => .ok (acc, s)
  | key :: keys, acc, s =>
    let n := grpLen pairs key
    if k ≤ n then
      let (smp, s') := sampleFn s n k
      sampleGroups sampleFn pairs k keys (acc ++ groupBlock smp key n) s'
    else
      .error (.valueError "Sample larger than population or is negative")

/-- `sample_cluster_seeds(features, labels, num_seed_points_per_label)`:
zip features with labels (truncating at the shorter), group by label in
first-occurrence order, sample `k` in-group indices per group, and emit per
group its labels-or-sentinel block. (`original_index_by_cluster` is computed
by the source but never used for the output, and the `aggregate` parameter is
never read at all, so neither is modelled.) -/
def sample_cluster_seeds {α σ : Type} (sampleFn : σ → Nat → Nat → Finset Nat × σ)
    (s : σ) (features : List α) (labels : List Int)
    (num_seed_points_per_label : Nat) : Except PyError (List Int × σ) :=
  let pairs := features.zip labels
  sampleGroups sampleFn pairs num_seed_points_per_label
    (insertionKeys (pairs.map Prod.snd)) [] s

/-- The label stream regrouped by label: distinct labels in first-occurrence
order, each followed by all its occurrences (the order the sampler's output
indices correspond to). -/
def regroupByLabel (zl : List Int) : List Int :=
  (insertionKeys zl).flatMap (fun key => zl.filter (fun x => x == key))

/-- One per-run metric record `{"rand": ..., "nmi": ...}` of the Results
Table. Metric values are opaque rationals produced by the external metric
functions. -/
structure MetricRecord where
  rand : Rat
  nmi : Rat
deriving DecidableEq, Repr, Inhabited

/-- The Results Table: `defaultdict(list)` from algorithm identifier to the
records appended for it, missing keys reading as the empty list. -/
def MetricTable : Type := String → List MetricRecord

/-- A fresh `defaultdict(list)`. -/
def emptyTable : MetricTable := fun _ => []

/-- `algo_results[semisupervised_algo].append(record)`. -/
def updateTable (t : MetricTable) (a : String) (r : MetricRecord) : MetricTable :=
  fun x => if x = a then t x ++ [r] else t x

/-- Observable external fit calls issued by `cluster` (the `.fit(...)`
invocations on library objects), logged in execution order. -/
inductive FitCall where
  | kmeansFit : FitCall
  | minmaxFit : FitCall
  | pckmeansFit : FitCall
  | constrainedFit : FitCall
  | seededFit : FitCall
deriving DecidableEq, Repr

/-- The external collaborators of the harness, all out of scope per the spec:
clustering constructors/`fit` calls, the active-learning oracle pipeline, the
two quality metrics, the seed sampler's `random.sample`, and `set_seed`.
Each stateful call threads the process-wide random-source state `σ`. -/
structure ExternalEnv (F σ : Type) where
  kmeansFit : σ → List F → Nat → List Int × σ
  minmaxFit : σ → List F → List Int → Option Nat → Nat →
    (List (Nat × Nat) × List (Nat × Nat)) × σ
  pckmeansFit : σ → List F → Nat → List (Nat × Nat) → List (Nat × Nat) →
    List Int × σ
  constrainedFit : σ → List F → Nat → List Int → List Int × σ
  seededFit : σ → List F → Nat → List Int → List Int × σ
  sample : σ → Nat → Nat → Finset Nat × σ
  rand : List Int → List Int → Rat
  nmi : List Int → List Int → Rat
  setSeed : Nat → σ

/-- The closed identifier set asserted at the top of `cluster`. -/
def supported_algorithms : List String :=
  ["KMeans", "PCKMeans", "ConstrainedKMeans", "SeededKMeans"]

/-- The `choices` list of the `--feature_extractor` CLI flag, also asserted
at the top of `extract_features`. -/
def feature_extractor_choices : List String :=
  ["identity", "BERT", "TFIDF"]

/-- `cluster(semisupervised_algo, features, labels, num_clusters,
max_feedback_given)`: the leading `assert` rejects identifiers outside
`supported_algorithms` with a bare `AssertionError`; recognized identifiers
dispatch to the matching external pipeline. Returns the fitted assignment
(`clusterer.labels_`), the advanced random state, and the log of external
fit calls the dispatch executed. The trailing `raise ValueError` branch of
the source is kept although the `assert` makes it unreachable. -/
def cluster {F σ : Type} (env : ExternalEnv F σ) (semisupervised_algo : String)
    (features : List F) (labels : List Int) (num_clusters : Nat)
    (max_feedback_given : Option Nat) (r : σ) :
    Except PyError (List Int) × σ × List FitCall :=
  if semisupervised_algo ∈ supported_algorithms then
    if semisupervised_algo = "KMeans" then
      let (out, r1) := env.kmeansFit r features num_clusters
      (.ok out, r1, [.kmeansFit])
    else if semisupervised_algo = "PCKMeans" then
      let (pc, r1) := env.minmaxFit r features labels max_feedback_given num_clusters
      let (out, r2) := env.pckmeansFit r1 features num_clusters pc.1 pc.2
      (.ok out, r2, [.minmaxFit, .pckmeansFit])
    else if semisupervised_algo = "ConstrainedKMeans" then
      match sample_cluster_seeds env.sample r features labels 1 with
      | .error e => (.error e, r, [])
      | .ok (cluster_seeds, r1) =>
        let (out, r2) := env.constrainedFit r1 features num_clusters cluster_seeds
        (.ok out, r2, [.constrainedFit])
    else if semisupervised_algo = "SeededKMeans" then
      match sample_cluster_seeds env.sample r features labels 1 with
      | .error e => (.error e, r, [])
      | .ok (cluster_seeds, r1) =>
        let (out, r2) := env.seededFit r1 features num_clusters cluster_seeds
        (.ok out, r2, [.seededFit])
    else
      (.error (.valueError ("Algorithm " ++ semisupervised_algo ++ " not supported.")), r, [])
  else
    (.error .assertionError, r, [])

/-- The external fit calls a recognized identifier's dispatch executes. -/
def callsFor : String → List FitCall
  | "KMeans" => [.kmeansFit]
  | "PCKMeans" => [.minmaxFit, .pckmeansFit]
  | "ConstrainedKMeans" => [.constrainedFit]
  | "SeededKMeans" => [.seededFit]
  | _ => []

/-- Observable state threaded through the comparison loops: the random-source
state plus the log of external fit calls executed so far (side effects that
survive a raised exception). -/
structure World (σ : Type) where
  rng : σ
  calls : List FitCall

/-- The inner `for semisupervised_algo in algorithms` loop of
`compare_algorithms`: dispatch each identifier in list order, compute both
metrics against the true labels, and append the record to the table; a raised
error aborts the loop, keeping the side effects already performed. -/
def run_algos {F σ : Type} (env : ExternalEnv F σ) (features : List F)
    (labels : List Int) (num_clusters : Nat) (max_feedback_given : Option Nat) :
    List String → MetricTable → World σ → Except PyError MetricTable × World σ
  | [], t, w => (.ok t, w)
  | algo :: rest, t, w =>
    match cluster env algo features labels num_clusters max_feedback_given w.rng with
    | (.error e, r1, cs) => (.error e, ⟨r1, w.calls ++ cs⟩)
    | (.ok out, r1, cs) =>
      let record : MetricRecord := ⟨env.rand labels out, env.nmi labels out⟩
      run_algos env features labels num_clusters max_feedback_given rest
        (updateTable t algo record) ⟨r1, w.calls ++ cs⟩

/-- The outer `for i, seed in enumerate(range(num_seeds))` loop: `set_seed`
resets the random-source state deterministically from the seed value, then
the inner loop runs (verbose printing is a side effect with no modelled
state). -/
def run_seeds {F σ : Type} (env : ExternalEnv F σ) (features : List F)
    (labels : List Int) (num_clusters : Nat) (max_feedback_given : Option Nat)
    (algorithms : List String) :
    List Nat → MetricTable → World σ → Except PyError MetricTable × World σ
  | [], t, w => (.ok t, w)
  | seed :: seeds, t, w =>
    match run_algos env features labels num_clusters max_feedback_given
        algorithms t ⟨env.setSeed seed, w.calls⟩ with
    | (.error e, w1) => (.error e, w1)
    | (.ok t1, w1) =>
      run_seeds env features labels num_clusters max_feedback_given
        algorithms seeds t1 w1

/-- `compare_algorithms(features, labels, num_clusters, max_feedback_given,
algorithms, num_seeds, verbose)`: run every requested algorithm for every
seed in `range(num_seeds)` and return the grown Results Table (or the first
raised error). -/
def compare_algorithms {F σ : Type} (env : ExternalEnv F σ) (features : List F)
    (labels : List Int) (num_clusters : Nat) (max_feedback_given : Option Nat)
    (algorithms : List String) (num_seeds : Nat) (w : World σ) :
    Except PyError MetricTable × World σ :=
  run_seeds env features labels num_clusters max_feedback_given algorithms
    (List.range num_seeds) emptyTable w

/-- The records produced for identifier `a` by one pass of the inner loop
starting from random state `r`, used to state in which order the final table
was grown (a specification helper mirroring `run_algos`). -/
def recsFor {F σ : Type} (env : ExternalEnv F σ) (features : List F)
    (labels : List Int) (num_clusters : Nat) (max_feedback_given : Option Nat) :
    List String → σ → String → List MetricRecord
  | [], _, _ => []
  | algo :: rest, r, a =>
    match cluster env algo features labels num_clusters max_feedback_given r with
    | (.error _, _, _) => []
    | (.ok out, r1, _) =>
      (if a = algo then [⟨env.rand labels out, env.nmi labels out⟩] else []) ++
        recsFor env features labels num_clusters max_feedback_given rest r1 a

/-- The metric record algorithm `a` receives in the loop iteration for a
given seed value (well-defined because `set_seed` makes each iteration a
function of the seed alone). -/
def seedMetric {F σ : Type} (env : ExternalEnv F σ) (features : List F)
    (labels : List Int) (num_clusters : Nat) (max_feedback_given : Option Nat)
    (algorithms : List String) (a : String) (seed : Nat) : MetricRecord :=
  (recsFor env features labels num_clusters max_feedback_given algorithms
    (env.setSeed seed) a).headD ⟨0, 0⟩

/-- `extract_features(dataset, feature_extractor, verbose)`: the leading
`assert` rejects names outside `feature_extractor_choices` with a bare
`AssertionError`; `identity` returns the dataset itself, `TFIDF` the external
vectorizer's matrix, and `BERT` — though accepted by the `assert` and the
CLI — unconditionally raises `NotImplementedError`. -/
def extract_features {D M : Type} (tfidfVectorize : D → M) (dataset : D)
    (feature_extractor : String) (verbose : Bool) : Except PyError (D ⊕ M) :=
  if feature_extractor ∈ feature_extractor_choices then
    if feature_extractor = "identity" then
      .ok (.inl dataset)
    else if feature_extractor = "TFIDF" then
      .ok (.inr (tfidfVectorize dataset))
    else
      .error .notImplementedError
  else
    .error .assertionError

/-- A concrete valid sampler (always picking the first `k` in-group indices)
with a trivial random-state type, used to instantiate theorems on concrete
inputs. -/
def pick0 : Unit → Nat → Nat → Finset Nat × Unit :=
  fun _ _ k => (Finset.range k, ())

/-- A concrete external environment over trivial feature and random-state
types, used to instantiate the harness theorems on concrete inputs. -/
def env0 : ExternalEnv Unit Unit where
  kmeansFit := fun _ features _ => (List.replicate features.length 0, ())
  minmaxFit := fun _ _ _ _ _ => (([], []), ())
  pckmeansFit := fun _ _ _ _ _ => ([], ())
  constrainedFit := fun _ _ _ _ => ([], ())
  seededFit := fun _ _ _ _ => ([], ())
  sample := pick0
  rand := fun _ _ => 0
  nmi := fun _ _ => 0
  setSeed := fun _ => ()

/-! ## Helper lemmas about the seed sampler's grouping -/

theorem insertionKeysAux_mem (zl : List Int) :
    ∀ (acc : List Int) (x : Int),
      x ∈ insertionKeysAux acc zl ↔ x ∈ acc ∨ x ∈ zl := by
  induction zl with
  | nil => intro acc x; simp [insertionKeysAux]
  | cons l rest ih =>
    intro acc x
    simp only [insertionKeysAux]
    rw [ih]
    by_cases hl : l ∈ acc
    · simp only [if_pos hl, List.mem_cons]
      constructor
      · rintro (h | h)
        · exact Or.inl h
        · exact Or.inr (Or.inr h)
      · rintro (h | h | h)
        · exact Or.inl h
        · exact Or.inl (h ▸ hl)
        · exact Or.inr h
    · simp only [if_neg hl, List.mem_append, List.mem_singleton, List.mem_cons]
      tauto

theorem insertionKeys_mem (zl : List Int) (x : Int) :
    x ∈ insertionKeys zl ↔ x ∈ zl := by
  rw [insertionKeys, insertionKeysAux_mem]
  simp

theorem insertionKeysAux_nodup (zl : List Int) :
    ∀ (acc : List Int), acc.Nodup → (insertionKeysAux acc zl).Nodup := by
  induction zl with
  | nil => intro acc h; simpa [insertionKeysAux] using h
  | cons l rest ih =>
    intro acc h
    simp only [insertionKeysAux]
    by_cases hl : l ∈ acc
    · rw [if_pos hl]; exact ih acc h
    · rw [if_neg hl]
      refine ih _ ?_
      simpa [List.nodup_append] using ⟨h, hl⟩

theorem insertionKeys_nodup (zl : List Int) : (insertionKeys zl).Nodup :=
  insertionKeysAux_nodup zl [] List.nodup_nil

theorem grpLen_eq_count {α : Type} (pairs : List (α × Int)) (key : Int) :
    grpLen pairs key = (pairs.map Prod.snd).count key := by
  rw [grpLen, List.count_eq_countP, List.countP_map,
    ← List.countP_eq_length_filter]
  rfl

theorem map_snd_zip_take {α β : Type} (l1 : List α) (l2 : List β) :
    (l1.zip l2).map Prod.snd = l2.take l1.length := by
  induction l1 generalizing l2 with
  | nil => simp
  | cons a l1 ih =>
    cases l2 with
    | nil => simp
    | cons b l2 => simp [ih]

theorem countP_mem_range (S : Finset Nat) :
    ∀ (n : Nat), (∀ i ∈ S, i < n) →
      (List.range n).countP (fun i => decide (i ∈ S)) = S.card := by
  intro n
  induction n generalizing S with
  | zero =>
    intro h
    have : S = ∅ := by
      ext i
      simp only [Finset.not_mem_empty, iff_false]
      intro hi
      exact absurd (h i hi) (Nat.not_lt_zero i)
    simp [this]
  | succ n ih =>
    intro h
    rw [List.range_succ, List.countP_append]
    have herase : ∀ i ∈ S.erase n, i < n := by
      intro i hi
      rcases Finset.mem_erase.mp hi with ⟨hne, hiS⟩
      exact Nat.lt_of_le_of_ne (Nat.lt_succ_iff.mp (h i hiS)) hne
    have hcong : (List.range n).countP (fun i => decide (i ∈ S)) =
        (List.range n).countP (fun i => decide (i ∈ S.erase n)) := by
      apply List.countP_congr
      intro i hi
      have hin : i < n := List.mem_range.mp hi
      simp [Finset.mem_erase, Nat.ne_of_lt hin]
    rw [hcong, ih (S.erase n) herase]
    by_cases hn : n ∈ S
    · simp [hn, Finset.card_erase_of_mem hn,
        Nat.sub_add_cancel (Finset.card_pos.mpr ⟨n, hn⟩)]
    · simp [hn, Finset.erase_eq_of_not_mem hn]

/-! ## Helper lemmas about a single group's output block -/

theorem groupBlock_length (smp : Finset Nat) (key : Int) (n : Nat) :
    (groupBlock smp key n).length = n := by
  simp [groupBlock]

theorem groupBlock_mem (smp : Finset Nat) (key : Int) (n : Nat) :
    ∀ x ∈ groupBlock smp key n, x = key ∨ x = -1 := by
  intro x hx
  rcases List.mem_map.mp hx with ⟨i, _, hi⟩
  by_cases h : i ∈ smp
  · left; rw [← hi, if_pos h]
  · right; rw [← hi, if_neg h]

theorem groupBlock_count (smp : Finset Nat) (key : Int) (n : Nat)
    (hkey : key ≠ -1) (hsub : ∀ i ∈ smp, i < n) :
    (groupBlock smp key n).count key = smp.card := by
  rw [groupBlock, List.count_eq_countP, List.countP_map]
  have : ((fun x => x == key) ∘ fun i => if i ∈ smp then key else -1) =
      fun i => decide (i ∈ smp) := by
    funext i
    by_cases h : i ∈ smp
    · simp [h]
    · simp [h, hkey.symm]
  rw [this, countP_mem_range smp n hsub]

/-! ## The sampler loop: success characterisation, failure, congruence -/

theorem sampleGroups_spec {α σ : Type} (sampleFn : σ → Nat → Nat → Finset Nat × σ)
    (hv : ValidSample sampleFn) (pairs : List (α × Int)) (k : Nat) :
    ∀ (keys : List Int), (∀ key ∈ keys, k ≤ grpLen pairs key) →
    ∀ (acc : List Int) (s : σ), ∃ (blocks : List (List Int)) (s' : σ),
      sampleGroups sampleFn pairs k keys acc s = .ok (acc ++ blocks.flatten, s') ∧
      List.Forall₂ (fun (key : Int) (b : List Int) =>
        b.length = grpLen pairs key ∧ (∀ x ∈ b, x = key ∨ x = -1) ∧
        (key ≠ -1 → b.count key = k)) keys blocks := by
  intro keys
  induction keys with
  | nil =>
    intro _ acc s
    exact ⟨[], s, by simp [sampleGroups], List.Forall₂.nil⟩
  | cons key keys ih =>
    intro hall acc s
    have hk : k ≤ grpLen pairs key := hall key (List.mem_cons_self key keys)
    obtain ⟨hcard, hsub⟩ := hv s (grpLen pairs key) k hk
    obtain ⟨blocks, s', hrun, hforall⟩ :=
      ih (fun x hx => hall x (List.mem_cons_of_mem key hx))
        (acc ++ groupBlock (sampleFn s (grpLen pairs key) k).1 key (grpLen pairs key))
        (sampleFn s (grpLen pairs key) k).2
    refine ⟨groupBlock (sampleFn s (grpLen pairs key) k).1 key (grpLen pairs key) :: blocks,
      s', ?_, ?_⟩
    · rw [sampleGroups, if_pos hk, List.flatten_cons, ← List.append_assoc]
      exact hrun
    · refine List.forall₂_cons.mpr ⟨⟨groupBlock_length _ _ _, groupBlock_mem _ _ _, ?_⟩, hforall⟩
      intro hne
      rw [groupBlock_count _ _ _ hne hsub, hcard]

theorem sampleGroups_error {α σ : Type} (sampleFn : σ → Nat → Nat → Finset Nat × σ)
    (pairs : List (α × Int)) (k : Nat) :
    ∀ (keys : List Int), (∃ key ∈ keys, grpLen pairs key < k) →
    ∀ (acc : List Int) (s : σ), ∃ e,
      sampleGroups sampleFn pairs k keys acc s = .error e := by
  intro keys
  induction keys with
  | nil => rintro ⟨key, hk, _⟩; exact absurd hk (List.not_mem_nil key)
  | cons key keys ih =>
    rintro ⟨key0, hk0, hlt⟩ acc s
    by_cases h : k ≤ grpLen pairs key
    · have hk0' : key0 ∈ keys := by
        rcases List.mem_cons.mp hk0 with rfl | hmem
        · exact absurd h (Nat.not_le_of_lt hlt)
        · exact hmem
      obtain ⟨e, he⟩ := ih ⟨key0, hk0', hlt⟩
        (acc ++ groupBlock (sampleFn s (grpLen pairs key) k).1 key (grpLen pairs key))
        (sampleFn s (grpLen pairs key) k).2
      exact ⟨e, by rw [sampleGroups, if_pos h]; exact he⟩
    · exact ⟨.valueError "Sample larger than population or is negative",
        by rw [sampleGroups, if_neg h]⟩

theorem sampleGroups_ok {α σ : Type} (sampleFn : σ → Nat → Nat → Finset Nat × σ)
    (pairs : List (α × Int)) (k : Nat) :
    ∀ (keys : List Int), (∀ key ∈ keys, k ≤ grpLen pairs key) →
    ∀ (acc : List Int) (s : σ), ∃ out s',
      sampleGroups sampleFn pairs k keys acc s = .ok (out, s') := by
  intro keys
  induction keys with
  | nil => intro _ acc s; exact ⟨acc, s, rfl⟩
  | cons key keys ih =>
    intro hall acc s
    have hk : k ≤ grpLen pairs key := hall key (List.mem_cons_self key keys)
    obtain ⟨out, s', hrun⟩ :=
      ih (fun x hx => hall x (List.mem_cons_of_mem key hx))
        (acc ++ groupBlock (sampleFn s (grpLen pairs key) k).1 key (grpLen pairs key))
        (sampleFn s (grpLen pairs key) k).2
    exact ⟨out, s', by rw [sampleGroups, if_pos hk]; exact hrun⟩

theorem sampleGroups_congr {α β σ : Type} (sampleFn : σ → Nat → Nat → Finset Nat × σ)
    (pairs1 : List (α × Int)) (pairs2 : List (β × Int))
    (h : pairs1.map Prod.snd = pairs2.map Prod.snd) (k : Nat) :
    ∀ (keys : List Int) (acc : List Int) (s : σ),
      sampleGroups sampleFn pairs1 k keys acc s =
        sampleGroups sampleFn pairs2 k keys acc s := by
  have hlen : ∀ key, grpLen pairs1 key = grpLen pairs2 key := by
    intro key
    rw [grpLen_eq_count, grpLen_eq_count, h]
  intro keys
  induction keys with
  | nil => intro acc s; rfl
  | cons key keys ih =>
    intro acc s
    rw [sampleGroups, sampleGroups, hlen key]
    by_cases hk : k ≤ grpLen pairs2 key
    · rw [if_pos hk, if_pos hk]
      exact ih _ _
    · rw [if_neg hk, if_neg hk]

/-! ## Counting and pointwise structure of a flattened block list -/

theorem count_flatten_of_forall₂ (l : Int) (hl : l ≠ -1) (k : Nat) :
    ∀ {keys : List Int} {blocks : List (List Int)},
      List.Forall₂ (fun (key : Int) (b : List Int) =>
        (∀ x ∈ b, x = key ∨ x = -1) ∧ (key ≠ -1 → b.count key = k)) keys blocks →
      keys.Nodup →
      ((l ∈ keys → blocks.flatten.count l = k) ∧
        (l ∉ keys → blocks.flatten.count l = 0)) := by
  intro keys blocks hf
  induction hf with
  | nil => simp
  | @cons key b keys blocks hrel _ ih =>
    intro hnodup
    obtain ⟨hnotmem, hnodup'⟩ := List.nodup_cons.mp hnodup
    obtain ⟨ihmem, ihnot⟩ := ih hnodup'
    rw [List.flatten_cons]
    constructor
    · intro hmem
      rcases List.mem_cons.mp hmem with rfl | hmem'
      · rw [List.count_append, hrel.2 hl, ihnot hnotmem]
        omega
      · have hlkey : l ≠ key := by
          rintro rfl; exact hnotmem hmem'
        have hnotb : l ∉ b := by
          intro hb
          rcases hrel.1 l hb with h | h
          · exact hlkey h
          · exact hl h
        rw [List.count_append, List.count_eq_zero.mpr hnotb, ihmem hmem']
        omega
    · intro hnot
      have hlkey : l ≠ key := fun h => hnot (h ▸ List.mem_cons_self key keys)
      have hnotb : l ∉ b := by
        intro hb
        rcases hrel.1 l hb with h | h
        · exact hlkey h
        · exact hl h
      rw [List.count_append, List.count_eq_zero.mpr hnotb,
        ihnot (fun h => hnot (List.mem_cons_of_mem key h))]

theorem flatten_length_of_forall₂ {α β : Type} :
    ∀ {L1 : List (List α)} {L2 : List (List β)},
      List.Forall₂ (fun b c => b.length = c.length) L1 L2 →
      L1.flatten.length = L2.flatten.length := by
  intro L1 L2 hf
  induction hf with
  | nil => rfl
  | cons hrel _ ih => simp only [List.flatten_cons, List.length_append, hrel, ih]

theorem flatten_get_opt_of_forall₂ :
    ∀ {L1 L2 : List (List Int)},
      List.Forall₂ (fun (b c : List Int) => b.length = c.length ∧
        ∀ i v, b.get? i = some v → v = -1 ∨ c.get? i = some v) L1 L2 →
      ∀ i v, L1.flatten.get? i = some v → v = -1 ∨ L2.flatten.get? i = some v := by
  intro L1 L2 hf
  induction hf with
  | nil => intro i v h; simp at h
  | @cons b c L1 L2 hrel _ ih =>
    intro i v h
    rw [List.flatten_cons] at h ⊢
    by_cases hi : i < b.length
    · rw [List.get?_append hi] at h
      rcases hrel.2 i v h with h1 | h1
      · exact Or.inl h1
      · right
        rw [List.get?_append (hrel.1 ▸ hi)]
        exact h1
    · rw [List.get?_append_right (Nat.le_of_not_lt hi)] at h
      rcases ih _ _ h with h1 | h1
      · exact Or.inl h1
      · right
        rw [List.get?_append_right (hrel.1 ▸ Nat.le_of_not_lt hi), ← hrel.1]
        exact h1

/-! ## The regrouped label stream is a permutation of the input stream -/

theorem sum_map_ite (a : Int) (c : Nat) :
    ∀ (keys : List Int), keys.Nodup →
      (keys.map (fun key => if key = a then c else 0)).sum =
        if a ∈ keys then c else 0 := by
  intro keys
  induction keys with
  | nil => simp
  | cons key keys ih =>
    intro hnodup
    obtain ⟨hnotmem, hnodup'⟩ := List.nodup_cons.mp hnodup
    rw [List.map_cons, List.sum_cons, ih hnodup']
    by_cases hka : key = a
    · subst hka
      simp [hnotmem]
    · simp only [if_neg hka, Nat.zero_add, List.mem_cons]
      by_cases ham : a ∈ keys
      · simp [ham]
      · have hak : ¬ a = key := fun h => hka h.symm
        simp [ham, hak]

theorem count_filter_eq (a key : Int) (zl : List Int) :
    (zl.filter (fun x => x == key)).count a =
      if key = a then zl.count a else 0 := by
  by_cases h : key = a
  · subst h
    rw [if_pos rfl]
    exact @List.count_filter ℤ _ _ (fun x => x == key) key zl (by simp)
  · rw [if_neg h, List.count_eq_zero]
    intro hmem
    have hbeq := List.of_mem_filter hmem
    have hak : a = key := by simpa using hbeq
    exact h hak.symm

theorem regroupByLabel_perm (zl : List Int) : (regroupByLabel zl).Perm zl := by
  rw [List.perm_iff_count]
  intro a
  rw [regroupByLabel, List.count_flatMap]
  have hmap : (List.map (List.count a ∘ fun key => zl.filter (fun x => x == key))
      (insertionKeys zl)) =
      (insertionKeys zl).map (fun key => if key = a then zl.count a else 0) := by
    apply List.map_congr_left
    intro key _
    exact count_filter_eq a key zl
  rw [hmap, sum_map_ite a (zl.count a) (insertionKeys zl) (insertionKeys_nodup zl)]
  by_cases hmem : a ∈ zl
  · rw [if_pos ((insertionKeys_mem zl a).mpr hmem)]
  · rw [if_neg (fun h => hmem ((insertionKeys_mem zl a).mp h)),
      List.count_eq_zero.mpr hmem]

theorem regroupByLabel_length (zl : List Int) :
    (regroupByLabel zl).length = zl.length :=
  (regroupByLabel_perm zl).length_eq

/-! ## Sampler facts at the `sample_cluster_seeds` level -/

theorem forall₂_mem_right {α β : Type} {R : α → β → Prop} :
    ∀ {l1 : List α} {l2 : List β}, List.Forall₂ R l1 l2 →
      ∀ b ∈ l2, ∃ a ∈ l1, R a b := by
  intro l1 l2 hf
  induction hf with
  | nil => intro b hb; exact absurd hb (List.not_mem_nil b)
  | @cons a b l1 l2 hrel _ ih =>
    intro c hc
    rcases List.mem_cons.mp hc with rfl | hc'
    · exact ⟨a, List.mem_cons_self a l1, hrel⟩
    · obtain ⟨a', ha', hr⟩ := ih c hc'
      exact ⟨a', List.mem_cons_of_mem a ha', hr⟩

theorem zip_map_snd_of_len_eq {α : Type} {features : List α} {labels : List Int}
    (hlen : features.length = labels.length) :
    (features.zip labels).map Prod.snd = labels := by
  rw [map_snd_zip_take, hlen, List.take_length]

theorem sample_cluster_seeds_spec {α σ : Type}
    (sampleFn : σ → Nat → Nat → Finset Nat × σ) (hv : ValidSample sampleFn)
    (s : σ) (features : List α) (labels : List Int) (k : Nat)
    (hlen : features.length = labels.length)
    (hgroups : ∀ l ∈ labels, k ≤ labels.count l) :
    ∃ (blocks : List (List Int)) (s' : σ),
      sample_cluster_seeds sampleFn s features labels k = .ok (blocks.flatten, s') ∧
      List.Forall₂ (fun (key : Int) (b : List Int) =>
        b.length = labels.count key ∧ (∀ x ∈ b, x = key ∨ x = -1) ∧
        (key ≠ -1 → b.count key = k)) (insertionKeys labels) blocks := by
  have hzl : (features.zip labels).map Prod.snd = labels := zip_map_snd_of_len_eq hlen
  have hgrp : ∀ key, grpLen (features.zip labels) key = labels.count key := by
    intro key; rw [grpLen_eq_count, hzl]
  have hall : ∀ key ∈ insertionKeys ((features.zip labels).map Prod.snd),
      k ≤ grpLen (features.zip labels) key := by
    intro key hkey
    rw [hgrp]
    exact hgroups key ((insertionKeys_mem labels key).mp (hzl ▸ hkey))
  obtain ⟨blocks, s', hrun, hforall⟩ :=
    sampleGroups_spec sampleFn hv (features.zip labels) k
      (insertionKeys ((features.zip labels).map Prod.snd)) hall [] s
  refine ⟨blocks, s', ?_, ?_⟩
  · rw [sample_cluster_seeds]
    simpa using hrun
  · rw [hzl] at hforall
    exact hforall.imp (fun key b hb => ⟨(hgrp key) ▸ hb.1, hb.2.1, hb.2.2⟩)

theorem sample_output_length {labels : List Int} {blocks : List (List Int)}
    (hforall : List.Forall₂ (fun (key : Int) (b : List Int) =>
      b.length = labels.count key ∧ (∀ x ∈ b, x = key ∨ x = -1) ∧
      (key ≠ -1 → b.count key = k)) (insertionKeys labels) blocks) :
    blocks.flatten.length = labels.length := by
  have hseg : List.Forall₂ (fun (b : List Int) (c : List Int) => b.length = c.length)
      blocks ((insertionKeys labels).map (fun key => labels.filter (fun x => x == key))) := by
    rw [List.forall₂_map_right_iff]
    exact hforall.flip.imp (fun b key hb => by
      rw [hb.1, List.count_eq_countP, List.countP_eq_length_filter])
  have hflat := flatten_length_of_forall₂ hseg
  have : ((insertionKeys labels).map
      (fun key => labels.filter (fun x => x == key))).flatten = regroupByLabel labels := by
    rw [regroupByLabel, List.flatMap_def]
  rw [hflat, this, regroupByLabel_length]

/-! ## Claim theorems for the Seed Sampler -/

/-- C1 counterexample: the claim quantifies over every label vector, but when
the sentinel value `-1` itself occurs as a label the output does not contain
exactly `k` entries equal to it. With labels `[-1, -1]` and `k = 1` (a valid
sampler, each group of size 2 ≥ 1) the output is `[-1, -1]`: two entries equal
to the distinct occurring label `-1`, not one. -/
theorem C1_counterexample :
    ValidSample pick0 ∧
    sample_cluster_seeds pick0 () [(), ()] [-1, -1] 1 = .ok ([-1, -1], ()) ∧
    ([-1, -1] : List Int).count (-1) = 2 := by
  refine ⟨?_, rfl, rfl⟩
  intro s n k hk
  refine ⟨by simp [pick0], ?_⟩
  intro i hi
  rw [pick0] at hi
  exact Nat.lt_of_lt_of_le (Finset.mem_range.mp hi) hk

/-- Valid-sampler fact about the concrete first-`k` sampler, shared by the
concrete instantiations below. -/
theorem validSample_pick0 : ValidSample pick0 := by
  intro s n k hk
  refine ⟨by simp [pick0], ?_⟩
  intro i hi
  rw [pick0] at hi
  exact Nat.lt_of_lt_of_le (Finset.mem_range.mp hi) hk

/-- C1 (amended): for every label vector in which the sentinel `-1` does not
itself occur as a label, and every positive `k` such that each label group has
at least `k` points, `sample_cluster_seeds` succeeds and its output contains
exactly `k` entries equal to `l` for each distinct label `l` occurring in the
input, every other entry being the unknown sentinel `-1` (the output also has
the input's length). -/
theorem C1_seed_counts {α σ : Type} (sampleFn : σ → Nat → Nat → Finset Nat × σ)
    (hv : ValidSample sampleFn) (s : σ) (features : List α) (labels : List Int)
    (k : Nat) (hk : 0 < k) (hlen : features.length = labels.length)
    (hsent : (-1 : Int) ∉ labels)
    (hgroups : ∀ l ∈ labels, k ≤ labels.count l) :
    ∃ (out : List Int) (s' : σ),
      sample_cluster_seeds sampleFn s features labels k = .ok (out, s') ∧
      out.length = labels.length ∧
      (∀ l ∈ labels, out.count l = k) ∧
      (∀ x ∈ out, x ∈ labels ∨ x = -1) := by
  obtain ⟨blocks, s', hrun, hforall⟩ :=
    sample_cluster_seeds_spec sampleFn hv s features labels k hlen hgroups
  refine ⟨blocks.flatten, s', hrun, sample_output_length hforall, ?_, ?_⟩
  · intro l hl
    have hlne : l ≠ -1 := fun h => hsent (h ▸ hl)
    have hweak := hforall.imp
      (fun (key : Int) (b : List Int) hb => And.intro hb.2.1 hb.2.2)
    exact (count_flatten_of_forall₂ l hlne k hweak (insertionKeys_nodup labels)).1
      ((insertionKeys_mem labels l).mpr hl)
  · intro x hx
    obtain ⟨b, hb, hxb⟩ := List.mem_flatten.mp hx
    obtain ⟨key, hkey, hrel⟩ := forall₂_mem_right hforall b hb
    rcases hrel.2.1 x hxb with rfl | rfl
    · exact Or.inl ((insertionKeys_mem labels x).mp hkey)
    · exact Or.inr rfl

/-- C1 witness: the amended theorem applied to labels `[0,0,0,1,1,1]` with
`k = 1` and the concrete first-`k` sampler. -/
theorem C1_seed_counts_witness :
    ∃ (out : List Int) (s' : Unit),
      sample_cluster_seeds pick0 () [(), (), (), (), (), ()] [0, 0, 0, 1, 1, 1] 1 =
        .ok (out, s') ∧
      out.length = ([0, 0, 0, 1, 1, 1] : List Int).length ∧
      (∀ l ∈ ([0, 0, 0, 1, 1, 1] : List Int), out.count l = 1) ∧
      (∀ x ∈ out, x ∈ ([0, 0, 0, 1, 1, 1] : List Int) ∨ x = -1) :=
  C1_seed_counts pick0 validSample_pick0 () [(), (), (), (), (), ()]
    [0, 0, 0, 1, 1, 1] 1 (by decide) rfl (by decide) (by decide)

/-- C3: for equal-length feature and label sequences whose label groups all
have at least `k` points, the sampler returns a vector of the input's length
whose index order follows the labels regrouped by label — groups in first
occurrence order, within each group the original order — so every non-sentinel
output entry agrees with `regroupByLabel labels` at its index (and sentinel
entries sit inside their group's segment as well). -/
theorem C3_output_regrouped_order {α σ : Type}
    (sampleFn : σ → Nat → Nat → Finset Nat × σ) (hv : ValidSample sampleFn)
    (s : σ) (features : List α) (labels : List Int) (k : Nat)
    (hlen : features.length = labels.length)
    (hgroups : ∀ l ∈ labels, k ≤ labels.count l) :
    ∃ (out : List Int) (s' : σ),
      sample_cluster_seeds sampleFn s features labels k = .ok (out, s') ∧
      out.length = labels.length ∧
      ∀ i v, out.get? i = some v →
        v = -1 ∨ (regroupByLabel labels).get? i = some v := by
  obtain ⟨blocks, s', hrun, hforall⟩ :=
    sample_cluster_seeds_spec sampleFn hv s features labels k hlen hgroups
  refine ⟨blocks.flatten, s', hrun, sample_output_length hforall, ?_⟩
  have hseg : List.Forall₂ (fun (b c : List Int) => b.length = c.length ∧
      ∀ i v, b.get? i = some v → v = -1 ∨ c.get? i = some v)
      blocks ((insertionKeys labels).map (fun key => labels.filter (fun x => x == key))) := by
    rw [List.forall₂_map_right_iff]
    refine hforall.flip.imp ?_
    intro b key hb
    have hblen : b.length = (labels.filter (fun x => x == key)).length := by
      rw [hb.1, List.count_eq_countP, List.countP_eq_length_filter]
    refine ⟨hblen, ?_⟩
    intro i v hv'
    obtain ⟨hi, hget⟩ := List.get?_eq_some.mp hv'
    rcases hb.2.1 v (hget ▸ List.get_mem b i hi) with rfl | rfl
    · right
      have hi2 : i < (labels.filter (fun x => x == v)).length := hblen ▸ hi
      rw [List.get?_eq_some]
      refine ⟨hi2, ?_⟩
      have hmem := List.get_mem (labels.filter (fun x => x == v)) i hi2
      have hbeq := List.of_mem_filter hmem
      have hgv : (labels.filter (fun x => x == v)).get ⟨i, hi2⟩ = v := by
        simpa using hbeq
      exact hgv
    · exact Or.inl rfl
  intro i v hget
  have hreg : ((insertionKeys labels).map
      (fun key => labels.filter (fun x => x == key))).flatten = regroupByLabel labels := by
    rw [regroupByLabel, List.flatMap_def]
  rcases flatten_get_opt_of_forall₂ hseg i v hget with h | h
  · exact Or.inl h
  · exact Or.inr (hreg ▸ h)

/-- C3 witness: the theorem applied to labels `[2,5,2,5]` with `k = 2` and the
concrete first-`k` sampler. -/
theorem C3_output_regrouped_order_witness :
    ∃ (out : List Int) (s' : Unit),
      sample_cluster_seeds pick0 () [(), (), (), ()] [2, 5, 2, 5] 2 = .ok (out, s') ∧
      out.length = ([2, 5, 2, 5] : List Int).length ∧
      ∀ i v, out.get? i = some v →
        v = -1 ∨ (regroupByLabel [2, 5, 2, 5]).get? i = some v :=
  C3_output_regrouped_order pick0 validSample_pick0 () [(), (), (), ()]
    [2, 5, 2, 5] 2 rfl (by decide)

/-- C6: whenever some label group of the zipped input is smaller than
`num_seed_points_per_label`, `sample_cluster_seeds` signals an error (the
`ValueError` of `random.sample`) instead of returning any result. -/
theorem C6_insufficient_group_error {α σ : Type}
    (sampleFn : σ → Nat → Nat → Finset Nat × σ) (s : σ)
    (features : List α) (labels : List Int) (k : Nat)
    (h : ∃ l ∈ (features.zip labels).map Prod.snd,
      ((features.zip labels).map Prod.snd).count l < k) :
    ∃ e, sample_cluster_seeds sampleFn s features labels k = .error e := by
  obtain ⟨l, hl, hlt⟩ := h
  obtain ⟨e, he⟩ := sampleGroups_error sampleFn (features.zip labels) k
    (insertionKeys ((features.zip labels).map Prod.snd))
    ⟨l, (insertionKeys_mem _ l).mpr hl, by rw [grpLen_eq_count]; exact hlt⟩ [] s
  exact ⟨e, by rw [sample_cluster_seeds]; exact he⟩

/-- C6 witness: labels `[0, 0, 1]` with `k = 2` — the group of label `1` has a
single point, so the call errors. -/
theorem C6_insufficient_group_error_witness :
    ∃ e, sample_cluster_seeds pick0 () [(), (), ()] [0, 0, 1] 2 = .error e :=
  C6_insufficient_group_error pick0 () [(), (), ()] [0, 0, 1] 2
    ⟨1, by decide, by decide⟩

/-- C8: the Feature Matrix is used only for indexing/alignment. Two calls with
the same label vector, the same `num_seed_points_per_label`, the same random
source and state, and feature sequences of the same length — even of different
element types — return identical outputs. -/
theorem C8_features_not_inspected {α β σ : Type}
    (sampleFn : σ → Nat → Nat → Finset Nat × σ) (s : σ)
    (features1 : List α) (features2 : List β) (labels : List Int) (k : Nat)
    (hlen : features1.length = features2.length) :
    sample_cluster_seeds sampleFn s features1 labels k =
      sample_cluster_seeds sampleFn s features2 labels k := by
  have hzl : (features1.zip labels).map Prod.snd =
      (features2.zip labels).map Prod.snd := by
    rw [map_snd_zip_take, map_snd_zip_take, hlen]
  rw [sample_cluster_seeds, sample_cluster_seeds, hzl]
  exact sampleGroups_congr sampleFn (features1.zip labels) (features2.zip labels)
    hzl k _ [] s

/-- C8 witness: differing feature values (and even feature types) of equal
length produce the same output. -/
theorem C8_features_not_inspected_witness :
    sample_cluster_seeds pick0 () [true, false, true] [4, 4, 7] 1 =
      sample_cluster_seeds pick0 () [9, 3, 5] [4, 4, 7] 1 :=
  C8_features_not_inspected pick0 () [true, false, true] [9, 3, 5] [4, 4, 7] 1 rfl

theorem sampleGroups_length {α σ : Type} (sampleFn : σ → Nat → Nat → Finset Nat × σ)
    (pairs : List (α × Int)) (k : Nat) :
    ∀ (keys : List Int), (∀ key ∈ keys, k ≤ grpLen pairs key) →
    ∀ (acc : List Int) (s : σ), ∃ out s',
      sampleGroups sampleFn pairs k keys acc s = .ok (out, s') ∧
      out.length = acc.length + (keys.map (grpLen pairs)).sum := by
  intro keys
  induction keys with
  | nil => intro _ acc s; exact ⟨acc, s, rfl, by simp⟩
  | cons key keys ih =>
    intro hall acc s
    have hk : k ≤ grpLen pairs key := hall key (List.mem_cons_self key keys)
    obtain ⟨out, s', hrun, hlen⟩ :=
      ih (fun x hx => hall x (List.mem_cons_of_mem key hx))
        (acc ++ groupBlock (sampleFn s (grpLen pairs key) k).1 key (grpLen pairs key))
        (sampleFn s (grpLen pairs key) k).2
    refine ⟨out, s', by rw [sampleGroups, if_pos hk]; exact hrun, ?_⟩
    rw [hlen, List.length_append, groupBlock_length, List.map_cons, List.sum_cons]
    omega

theorem sum_grpLen_keys {α : Type} (pairs : List (α × Int)) :
    ((insertionKeys (pairs.map Prod.snd)).map (grpLen pairs)).sum =
      pairs.length := by
  have hmap : (insertionKeys (pairs.map Prod.snd)).map (grpLen pairs) =
      (insertionKeys (pairs.map Prod.snd)).map
        (fun key => ((pairs.map Prod.snd).filter (fun x => x == key)).length) := by
    apply List.map_congr_left
    intro key _
    rw [grpLen_eq_count, List.count_eq_countP, List.countP_eq_length_filter]
  rw [hmap]
  have hflat : ((insertionKeys (pairs.map Prod.snd)).map
      (fun key => ((pairs.map Prod.snd).filter (fun x => x == key)).length)).sum =
      (regroupByLabel (pairs.map Prod.snd)).length := by
    rw [regroupByLabel, List.flatMap_def, List.length_flatten, List.map_map]
    rfl
  rw [hflat, regroupByLabel_length, List.length_map]

/-- C10: `sample_cluster_seeds` performs no length check on its two sequence
inputs. For sequences of unequal lengths it silently pairs points up to the
shorter one (`zip` truncation), and — provided every resulting label group has
at least `k` points — returns a vector whose length is the minimum of the two
input lengths, not the Feature Matrix length. -/
theorem C10_unequal_lengths_truncate {α σ : Type}
    (sampleFn : σ → Nat → Nat → Finset Nat × σ) (s : σ)
    (features : List α) (labels : List Int) (k : Nat)
    (hne : features.length ≠ labels.length)
    (hgroups : ∀ l ∈ (features.zip labels).map Prod.snd,
      k ≤ ((features.zip labels).map Prod.snd).count l) :
    ∃ (out : List Int) (s' : σ),
      sample_cluster_seeds sampleFn s features labels k = .ok (out, s') ∧
      out.length = min features.length labels.length := by
  have hall : ∀ key ∈ insertionKeys ((features.zip labels).map Prod.snd),
      k ≤ grpLen (features.zip labels) key := by
    intro key hkey
    rw [grpLen_eq_count]
    exact hgroups key ((insertionKeys_mem _ key).mp hkey)
  obtain ⟨out, s', hrun, hlen⟩ :=
    sampleGroups_length sampleFn (features.zip labels) k
      (insertionKeys ((features.zip labels).map Prod.snd)) hall [] s
  refine ⟨out, s', by rw [sample_cluster_seeds]; exact hrun, ?_⟩
  rw [hlen, sum_grpLen_keys, List.length_zip]
  simp

/-- C10 witness: four features against two labels — no error, and the output
has length 2 = min 4 2, not the feature length 4. -/
theorem C10_unequal_lengths_truncate_witness :
    ∃ (out : List Int) (s' : Unit),
      sample_cluster_seeds pick0 () [(), (), (), ()] [3, 3] 1 = .ok (out, s') ∧
      out.length = min ([(), (), (), ()] : List Unit).length ([3, 3] : List Int).length :=
  C10_unequal_lengths_truncate pick0 () [(), (), (), ()] [3, 3] 1
    (by decide) (by decide)

/-! ## Harness lemmas: dispatch and the two loops -/

theorem sample_k1_ok {α σ : Type} (sampleFn : σ → Nat → Nat → Finset Nat × σ)
    (s : σ) (features : List α) (labels : List Int) :
    ∃ out s', sample_cluster_seeds sampleFn s features labels 1 = .ok (out, s') := by
  have hall : ∀ key ∈ insertionKeys ((features.zip labels).map Prod.snd),
      1 ≤ grpLen (features.zip labels) key := by
    intro key hkey
    rw [grpLen_eq_count]
    exact List.count_pos_iff.mpr ((insertionKeys_mem _ key).mp hkey)
  obtain ⟨out, s', hrun⟩ := sampleGroups_ok sampleFn (features.zip labels) 1
    (insertionKeys ((features.zip labels).map Prod.snd)) hall [] s
  exact ⟨out, s', by rw [sample_cluster_seeds]; exact hrun⟩

theorem cluster_unrecognized {F σ : Type} (env : ExternalEnv F σ) (a : String)
    (features : List F) (labels : List Int) (num_clusters : Nat)
    (max_feedback_given : Option Nat) (r : σ) (h : a ∉ supported_algorithms) :
    cluster env a features labels num_clusters max_feedback_given r =
      (.error .assertionError, r, []) := by
  rw [cluster, if_neg h]

theorem cluster_constrained_eq {F σ : Type} (env : ExternalEnv F σ)
    (features : List F) (labels : List Int) (num_clusters : Nat)
    (max_feedback_given : Option Nat) (r : σ) :
    cluster env "ConstrainedKMeans" features labels num_clusters max_feedback_given r =
      match sample_cluster_seeds env.sample r features labels 1 with
      | .error e => (.error e, r, [])
      | .ok (cluster_seeds, r1) =>
        (.ok (env.constrainedFit r1 features num_clusters cluster_seeds).1,
          (env.constrainedFit r1 features num_clusters cluster_seeds).2,
          [.constrainedFit]) := by
  rw [cluster]
  norm_num
  rcases sample_cluster_seeds env.sample r features labels 1 with e | ⟨cs, r1⟩ <;> rfl

theorem cluster_seeded_eq {F σ : Type} (env : ExternalEnv F σ)
    (features : List F) (labels : List Int) (num_clusters : Nat)
    (max_feedback_given : Option Nat) (r : σ) :
    cluster env "SeededKMeans" features labels num_clusters max_feedback_given r =
      match sample_cluster_seeds env.sample r features labels 1 with
      | .error e => (.error e, r, [])
      | .ok (cluster_seeds, r1) =>
        (.ok (env.seededFit r1 features num_clusters cluster_seeds).1,
          (env.seededFit r1 features num_clusters cluster_seeds).2,
          [.seededFit]) := by
  rw [cluster]
  norm_num
  rcases sample_cluster_seeds env.sample r features labels 1 with e | ⟨cs, r1⟩ <;> rfl

theorem cluster_recognized {F σ : Type} (env : ExternalEnv F σ) (a : String)
    (features : List F) (labels : List Int) (num_clusters : Nat)
    (max_feedback_given : Option Nat) (r : σ) (h : a ∈ supported_algorithms) :
    ∃ out r', cluster env a features labels num_clusters max_feedback_given r =
      (.ok out, r', callsFor a) := by
  have hmem : a = "KMeans" ∨ a = "PCKMeans" ∨ a = "ConstrainedKMeans" ∨
      a = "SeededKMeans" := by
    simpa [supported_algorithms] using h
  rcases hmem with rfl | rfl | rfl | rfl
  · exact ⟨_, _, rfl⟩
  · exact ⟨_, _, rfl⟩
  · obtain ⟨seeds, r1, hs⟩ := sample_k1_ok env.sample r features labels
    refine ⟨(env.constrainedFit r1 features num_clusters seeds).1,
      (env.constrainedFit r1 features num_clusters seeds).2, ?_⟩
    rw [cluster_constrained_eq, hs]
    rfl
  · obtain ⟨seeds, r1, hs⟩ := sample_k1_ok env.sample r features labels
    refine ⟨(env.seededFit r1 features num_clusters seeds).1,
      (env.seededFit r1 features num_clusters seeds).2, ?_⟩
    rw [cluster_seeded_eq, hs]
    rfl

theorem run_algos_ok {F σ : Type} (env : ExternalEnv F σ) (features : List F)
    (labels : List Int) (num_clusters : Nat) (max_feedback_given : Option Nat) :
    ∀ (algos : List String), (∀ a ∈ algos, a ∈ supported_algorithms) →
    ∀ (t : MetricTable) (w : World σ), ∃ (t' : MetricTable) (w' : World σ),
      run_algos env features labels num_clusters max_feedback_given algos t w =
        (.ok t', w') ∧
      ∀ a, t' a = t a ++
        recsFor env features labels num_clusters max_feedback_given algos w.rng a := by
  intro algos
  induction algos with
  | nil =>
    intro _ t w
    exact ⟨t, w, rfl, fun a => by rw [recsFor, List.append_nil]⟩
  | cons algo rest ih =>
    intro hall t w
    obtain ⟨out, r', hc⟩ := cluster_recognized env algo features labels num_clusters
      max_feedback_given w.rng (hall algo (List.mem_cons_self algo rest))
    obtain ⟨t', w', hrun, ht⟩ :=
      ih (fun x hx => hall x (List.mem_cons_of_mem algo hx))
        (updateTable t algo ⟨env.rand labels out, env.nmi labels out⟩)
        ⟨r', w.calls ++ callsFor algo⟩
    refine ⟨t', w', ?_, ?_⟩
    · rw [run_algos, hc]
      exact hrun
    · intro a
      rw [ht a, recsFor, hc]
      simp only [updateTable]
      by_cases ha : a = algo
      · rw [if_pos ha, if_pos ha, List.append_assoc]
      · rw [if_neg ha, if_neg ha, List.nil_append]

theorem run_seeds_ok {F σ : Type} (env : ExternalEnv F σ) (features : List F)
    (labels : List Int) (num_clusters : Nat) (max_feedback_given : Option Nat)
    (algorithms : List String) (hsup : ∀ a ∈ algorithms, a ∈ supported_algorithms) :
    ∀ (seeds : List Nat) (t : MetricTable) (w : World σ),
      ∃ (t' : MetricTable) (w' : World σ),
        run_seeds env features labels num_clusters max_feedback_given algorithms
          seeds t w = (.ok t', w') ∧
        ∀ a, t' a = t a ++ (seeds.map (fun seed =>
          recsFor env features labels num_clusters max_feedback_given algorithms
            (env.setSeed seed) a)).flatten := by
  intro seeds
  induction seeds with
  | nil =>
    intro t w
    exact ⟨t, w, rfl, fun a => by simp⟩
  | cons seed rest ih =>
    intro t w
    obtain ⟨t1, w1, hrun1, ht1⟩ := run_algos_ok env features labels num_clusters
      max_feedback_given algorithms hsup t ⟨env.setSeed seed, w.calls⟩
    obtain ⟨t', w', hrun, ht⟩ := ih t1 w1
    refine ⟨t', w', ?_, ?_⟩
    · rw [run_seeds, hrun1]
      exact hrun
    · intro a
      rw [ht a, ht1 a, List.map_cons, List.flatten_cons, List.append_assoc]

theorem recsFor_length {F σ : Type} (env : ExternalEnv F σ) (features : List F)
    (labels : List Int) (num_clusters : Nat) (max_feedback_given : Option Nat)
    (a : String) :
    ∀ (algos : List String), (∀ x ∈ algos, x ∈ supported_algorithms) →
    ∀ (r : σ),
      (recsFor env features labels num_clusters max_feedback_given algos r a).length =
        algos.count a := by
  intro algos
  induction algos with
  | nil => intro _ r; rfl
  | cons algo rest ih =>
    intro hall r
    obtain ⟨out, r', hc⟩ := cluster_recognized env algo features labels num_clusters
      max_feedback_given r (hall algo (List.mem_cons_self algo rest))
    rw [recsFor, hc, List.length_append,
      ih (fun x hx => hall x (List.mem_cons_of_mem algo hx)) r',
      List.count_cons]
    by_cases ha : a = algo
    · subst ha
      simp
      omega
    · have hne : ¬ (algo == a) = true := by simpa using fun h => ha h.symm
      simp [ha, hne]

theorem singleton_of_length_one {β : Type} [Inhabited β] :
    ∀ (l : List β), l.length = 1 → l = [l.headD default] := by
  intro l h
  match l, h with
  | [x], _ => rfl

theorem flatten_map_singleton {γ δ : Type} (g : γ → δ) :
    ∀ (L : List γ), (L.map (fun x => [g x])).flatten = L.map g := by
  intro L
  induction L with
  | nil => rfl
  | cons x L ih => simp [ih]

/-! ## Claim theorems for the Comparison Harness -/

/-- C2 counterexample: the claim quantifies over every identifier list drawn
from the closed set, but a list that requests the same identifier twice makes
its Results Table entry hold `2 · N` records, not `N`. With
`algorithms = ["KMeans", "KMeans"]` and `num_seeds = 1` the `"KMeans"` entry
has two records. -/
theorem C2_counterexample :
    ∃ t : MetricTable,
      (compare_algorithms env0 [] [] 1 none ["KMeans", "KMeans"] 1 ⟨(), []⟩).1 =
        .ok t ∧
      (t "KMeans").length = 2 :=
  ⟨_, rfl, rfl⟩

/-- C2 (amended): for every list of *distinct* algorithm identifiers drawn
from the closed set and positive `num_seeds = N`, `compare_algorithms` returns
a Results Table mapping each requested identifier to exactly `N` metric
records (each a rand/nmi pair), ordered by seed value over `[0, N)`. -/
theorem C2_results_table {F σ : Type} (env : ExternalEnv F σ) (features : List F)
    (labels : List Int) (num_clusters : Nat) (hnc : 0 < num_clusters)
    (max_feedback_given : Option Nat) (algorithms : List String)
    (hsup : ∀ a ∈ algorithms, a ∈ supported_algorithms)
    (hnodup : algorithms.Nodup) (num_seeds : Nat) (hpos : 0 < num_seeds)
    (w : World σ) :
    ∃ (t : MetricTable) (w' : World σ),
      compare_algorithms env features labels num_clusters max_feedback_given
        algorithms num_seeds w = (.ok t, w') ∧
      ∀ a ∈ algorithms,
        (t a).length = num_seeds ∧
        t a = (List.range num_seeds).map
          (seedMetric env features labels num_clusters max_feedback_given
            algorithms a) := by
  obtain ⟨t, w', hrun, ht⟩ := run_seeds_ok env features labels num_clusters
    max_feedback_given algorithms hsup (List.range num_seeds) emptyTable w
  refine ⟨t, w', hrun, ?_⟩
  intro a ha
  have hsingle : ∀ seed : Nat,
      recsFor env features labels num_clusters max_feedback_given algorithms
        (env.setSeed seed) a =
      [seedMetric env features labels num_clusters max_feedback_given
        algorithms a seed] := by
    intro seed
    have hlen1 : (recsFor env features labels num_clusters max_feedback_given
        algorithms (env.setSeed seed) a).length = 1 := by
      rw [recsFor_length env features labels num_clusters max_feedback_given a
        algorithms hsup (env.setSeed seed)]
      exact List.count_eq_one_of_mem hnodup ha
    rw [seedMetric]
    exact singleton_of_length_one _ hlen1
  have hta : t a = (List.range num_seeds).map
      (seedMetric env features labels num_clusters max_feedback_given
        algorithms a) := by
    rw [ht a]
    rw [List.map_congr_left (fun seed _ => hsingle seed), flatten_map_singleton]
    rfl
  exact ⟨by rw [hta, List.length_map, List.length_range], hta⟩

/-- C2 witness: the amended theorem at the concrete environment, one requested
algorithm and one seed. -/
theorem C2_results_table_witness :
    ∃ (t : MetricTable) (w' : World Unit),
      compare_algorithms env0 [] [] 1 none ["KMeans"] 1 ⟨(), []⟩ = (.ok t, w') ∧
      ∀ a ∈ ["KMeans"],
        (t a).length = 1 ∧
        t a = (List.range 1).map (seedMetric env0 [] [] 1 none ["KMeans"] a) :=
  C2_results_table env0 [] [] 1 (by decide) none ["KMeans"] (by decide)
    (by decide) 1 (by decide) ⟨(), []⟩

theorem run_algos_error {F σ : Type} (env : ExternalEnv F σ) (features : List F)
    (labels : List Int) (num_clusters : Nat) (max_feedback_given : Option Nat)
    (bad : String) (hbad : bad ∉ supported_algorithms) :
    ∀ (pre : List String), (∀ x ∈ pre, x ∈ supported_algorithms) →
    ∀ (rest : List String) (t : MetricTable) (w : World σ),
      ∃ r', run_algos env features labels num_clusters max_feedback_given
          (pre ++ bad :: rest) t w =
        (.error .assertionError, ⟨r', w.calls ++ (pre.map callsFor).flatten⟩) := by
  intro pre
  induction pre with
  | nil =>
    intro _ rest t w
    refine ⟨w.rng, ?_⟩
    rw [List.nil_append, run_algos,
      cluster_unrecognized env bad features labels num_clusters
        max_feedback_given w.rng hbad]
    simp
  | cons x pre ih =>
    intro hall rest t w
    obtain ⟨out, r', hc⟩ := cluster_recognized env x features labels num_clusters
      max_feedback_given w.rng (hall x (List.mem_cons_self x pre))
    obtain ⟨r2, hrun⟩ := ih (fun z hz => hall z (List.mem_cons_of_mem x hz)) rest
      (updateTable t x ⟨env.rand labels out, env.nmi labels out⟩)
      ⟨r', w.calls ++ callsFor x⟩
    refine ⟨r2, ?_⟩
    rw [List.cons_append, run_algos, hc, List.map_cons, List.flatten_cons,
      ← List.append_assoc]
    exact hrun

/-- C4 (amended): when the algorithm list contains an unrecognized identifier
(and `num_seeds ≥ 1`), `compare_algorithms` raises `AssertionError` at that
identifier's dispatch in the first seed iteration, before any clustering call
for the unrecognized identifier executes and with no Results Table returned —
but the clustering calls of the recognized identifiers *preceding* it in the
list do execute first. -/
theorem C4_unrecognized_fail_fast {F σ : Type} (env : ExternalEnv F σ)
    (features : List F) (labels : List Int) (num_clusters : Nat)
    (max_feedback_given : Option Nat) (pre rest : List String) (bad : String)
    (hpre : ∀ x ∈ pre, x ∈ supported_algorithms)
    (hbad : bad ∉ supported_algorithms)
    (num_seeds : Nat) (hpos : 0 < num_seeds) (w : World σ) :
    ∃ r', compare_algorithms env features labels num_clusters max_feedback_given
        (pre ++ bad :: rest) num_seeds w =
      (.error .assertionError, ⟨r', w.calls ++ (pre.map callsFor).flatten⟩) := by
  obtain ⟨m, rfl⟩ : ∃ m, num_seeds = m + 1 := ⟨num_seeds - 1, by omega⟩
  rw [compare_algorithms, List.range_succ_eq_map]
  obtain ⟨r', hrun⟩ := run_algos_error env features labels num_clusters
    max_feedback_given bad hbad pre hpre rest emptyTable ⟨env.setSeed 0, w.calls⟩
  refine ⟨r', ?_⟩
  rw [run_seeds, hrun]

/-- C4 counterexample: with `algorithms = ["KMeans", "Bogus"]` and one seed,
the harness does raise, but only after the `KMeans` clustering call has
executed — the error is not raised before any clustering call executes. -/
theorem C4_counterexample :
    "Bogus" ∉ supported_algorithms ∧
    (compare_algorithms env0 [] [] 1 none ["KMeans", "Bogus"] 1 ⟨(), []⟩).1 =
      .error .assertionError ∧
    (compare_algorithms env0 [] [] 1 none ["KMeans", "Bogus"] 1 ⟨(), []⟩).2.calls =
      [.kmeansFit] :=
  ⟨by decide, rfl, rfl⟩

/-- C4 witness: the amended theorem at the concrete environment with a
recognized identifier preceding the unrecognized one. -/
theorem C4_unrecognized_fail_fast_witness :
    ∃ r', compare_algorithms env0 [] [] 1 none (["KMeans"] ++ "Bogus" :: []) 1
        ⟨(), []⟩ =
      (.error .assertionError, ⟨r', [] ++ ((["KMeans"].map callsFor).flatten)⟩) :=
  C4_unrecognized_fail_fast env0 [] [] 1 none ["KMeans"] [] "Bogus"
    (by decide) (by decide) 1 (by decide) ⟨(), []⟩

/-- C5 counterexample: for the unsupported value `"Bogus"`, both
`extract_features` and `cluster` raise the bare `AssertionError` of their
leading membership `assert`: an error carrying no message at all, hence not
one naming the unsupported value (the source's message-bearing `ValueError`
branch is unreachable behind the assert). -/
theorem C5_counterexample :
    "Bogus" ∉ feature_extractor_choices ∧
    extract_features (fun d : Unit => d) () "Bogus" false = .error .assertionError ∧
    "Bogus" ∉ supported_algorithms ∧
    cluster env0 "Bogus" [] [] 1 none () = (.error .assertionError, (), []) ∧
    PyError.message .assertionError = none :=
  ⟨by decide, rfl, by decide, rfl, rfl⟩

/-- C5 (amended): every feature-extractor name outside {identity, BERT, TFIDF}
passed to `extract_features`, and every algorithm identifier outside the
closed set passed to `cluster`, raises an immediate fatal error — but it is a
bare `AssertionError` whose message does not name the unsupported value (it
has no message). -/
theorem C5_immediate_assert {D M F σ : Type} (tfidfVectorize : D → M)
    (dataset : D) (verbose : Bool) (x : String)
    (hx : x ∉ feature_extractor_choices) (env : ExternalEnv F σ)
    (features : List F) (labels : List Int) (num_clusters : Nat)
    (max_feedback_given : Option Nat) (r : σ) (y : String)
    (hy : y ∉ supported_algorithms) :
    extract_features tfidfVectorize dataset x verbose = .error .assertionError ∧
    cluster env y features labels num_clusters max_feedback_given r =
      (.error .assertionError, r, []) ∧
    PyError.message .assertionError = none :=
  ⟨by rw [extract_features, if_neg hx],
    cluster_unrecognized env y features labels num_clusters max_feedback_given
      r hy, rfl⟩

/-- C5 witness: the amended theorem at the unsupported value `"Nope"`. -/
theorem C5_immediate_assert_witness :
    extract_features (fun d : Unit => d) () "Nope" false = .error .assertionError ∧
    cluster env0 "Nope" [] [] 1 none () = (.error .assertionError, (), []) ∧
    PyError.message .assertionError = none :=
  C5_immediate_assert (fun d : Unit => d) () false "Nope" (by decide) env0
    [] [] 1 none () "Nope" (by decide)

/-- C7: the `KMeans` branch of `cluster` never consumes the label vector: two
runs on the same features, number of clusters and random-source state but
different label vectors produce the same result (ground truth is never passed
as supervision to the unsupervised baseline). -/
theorem C7_kmeans_label_independent {F σ : Type} (env : ExternalEnv F σ)
    (features : List F) (labels1 labels2 : List Int) (num_clusters : Nat)
    (max_feedback_given : Option Nat) (r : σ) :
    cluster env "KMeans" features labels1 num_clusters max_feedback_given r =
      cluster env "KMeans" features labels2 num_clusters max_feedback_given r :=
  rfl

/-- C9: `extract_features` with `feature_extractor = "BERT"` raises
`NotImplementedError` for every dataset, even though `"BERT"` passes the
function's accepted-extractor assert and is an accepted CLI choice. -/
theorem C9_bert_raises {D M : Type} (tfidfVectorize : D → M) (dataset : D)
    (verbose : Bool) :
    extract_features tfidfVectorize dataset "BERT" verbose =
      .error .notImplementedError ∧
    "BERT" ∈ feature_extractor_choices :=
  ⟨rfl, by decide⟩

end ActiveClustering
